import Mathlib

/-!
Verification of the helper functions in `jupyter example/helper_functions.py`:
`greet`, `calculate_square` and `fibonacci`. Each Python function is embedded
as a total Lean function; Python integers become `Int`, Python lists become
`List`, Python strings become `String`, and a Python number (int or float)
becomes the sum type `PyNum`, with floats idealised as exact rationals
(see the `PyNum` doc comment for what that idealisation erases and which
properties it is therefore used for).
-/

namespace HelperFunctions

/-- Embedding of `greet(name)`: the f-string
`f"Hello, {name}! Welcome to Jupyter notebooks!"` interpolates the textual
form of `name`; for a string argument this is the plain concatenation. -/
def greet (name : String) : String :=
  "Hello, " ++ name ++ "! Welcome to Jupyter notebooks!"

/-- A Python number: either an `int` (arbitrary precision integer) or a
`float`. The float case is an idealisation: it carries the exact rational
value of a finite double and erases IEEE-754 binary64 rounding, the finite
range with its overflow behaviour, and the special values inf and nan.
This model is used only for properties that do not depend on those aspects
(determinism in `helpers_deterministic`); value-level properties of the
float branch of `calculate_square` are outside this development. -/
inductive PyNum where
  | intVal (i : Int)
  | floatVal (q : Rat)
deriving DecidableEq, Repr

/-- Embedding of `calculate_square(number)`, which returns `number ** 2`.
The int branch is exact, like Python arbitrary-precision `int ** 2`. The
float branch squares the idealised exact value; the real CPython float `**`
goes through libm pow, whose rounding is implementation-defined, and raises
OverflowError when the result leaves the double range, neither of which is
modelled here. -/
def calculate_square : PyNum → PyNum
  | .intVal i => .intVal (i ^ 2)
  | .floatVal q => .floatVal (q ^ 2)

/-- Embedding of the loop `for i in range(2, n): fib_sequence.append(
fib_sequence[i-1] + fib_sequence[i-2])`. The first argument is the number
of iterations still to run (`range(2, n)` runs `n - 2` of them), `i` is the
loop counter starting at 2, and `acc` is `fib_sequence`. List indexing is
total here via `getD`; `fibLoopChecked` below shows every read is in
bounds. -/
def fibLoop : Nat → Nat → List Int → List Int
  | 0, _, acc => acc
  | fuel + 1, i, acc =>
      fibLoop fuel (i + 1) (acc ++ [acc.getD (i - 1) 0 + acc.getD (i - 2) 0])

/-- Embedding of `fibonacci(n)` from `helper_functions.py`: early returns
for `n <= 0`, `n == 1`, `n == 2`, then the iterative loop seeded with
`[0, 1]`. -/
def fibonacci (n : Int) : List Int :=
  if n ≤ 0 then []
  else if n = 1 then [0]
  else if n = 2 then [0, 1]
  else fibLoop (n.toNat - 2) 2 [0, 1]

/-- Instrumented variant of `fibLoop`: indexing is partial (`none` models a
Python `IndexError`), and the number of executed iterations is returned
alongside the list. -/
def fibLoopChecked : Nat → Nat → List Int → Option (List Int × Nat)
  | 0, _, acc => some (acc, 0)
  | fuel + 1, i, acc =>
      match acc[i - 1]?, acc[i - 2]? with
      | some a, some b =>
          match fibLoopChecked fuel (i + 1) (acc ++ [a + b]) with
          | some (res, c) => some (res, c + 1)
          | none => none
      | _, _ => none

/-- Instrumented variant of `fibonacci`, returning `none` if any list read
of the loop were out of bounds, and otherwise the result together with the
number of loop iterations executed. -/
def fibonacciChecked (n : Int) : Option (List Int × Nat) :=
  if n ≤ 0 then some ([], 0)
  else if n = 1 then some ([0], 0)
  else if n = 2 then some ([0, 1], 0)
  else fibLoopChecked (n.toNat - 2) 2 [0, 1]

/-- The reference sequence of the spec, defined recursively:
F(0)=0, F(1)=1, F(k)=F(k-1)+F(k-2). -/
def fibRec : Nat → Nat
  | 0 => 0
  | 1 => 1
  | k + 2 => fibRec k + fibRec (k + 1)

/-- The first `n` terms of the reference sequence, as Python integers. -/
def fibFirstTerms (n : Nat) : List Int :=
  (List.range n).map (fun k => (fibRec k : Int))

theorem fibFirstTerms_length (n : Nat) : (fibFirstTerms n).length = n := by
  simp [fibFirstTerms]

theorem fibFirstTerms_getD (n k : Nat) (hk : k < n) :
    (fibFirstTerms n).getD k 0 = fibRec k := by
  simp [fibFirstTerms, List.getD_eq_getElem?_getD, List.getElem?_map,
    List.getElem?_range hk]

theorem fibFirstTerms_getElemOpt (n k : Nat) (hk : k < n) :
    (fibFirstTerms n)[k]? = some ((fibRec k : Int)) := by
  simp [fibFirstTerms, List.getElem?_map, List.getElem?_range hk]

theorem fibFirstTerms_succ (n : Nat) :
    fibFirstTerms (n + 1) = fibFirstTerms n ++ [(fibRec n : Int)] := by
  simp [fibFirstTerms, List.range_succ]

theorem fibRec_step (i : Nat) (hi : 2 ≤ i) :
    fibRec (i - 1) + fibRec (i - 2) = fibRec i := by
  obtain ⟨k, rfl⟩ : ∃ k, i = k + 2 := ⟨i - 2, by omega⟩
  show fibRec (k + 1) + fibRec k = fibRec (k + 2)
  have h : fibRec (k + 2) = fibRec k + fibRec (k + 1) := rfl
  omega

theorem fibRec_le_succ (k : Nat) : fibRec k ≤ fibRec (k + 1) := by
  match k with
  | 0 => decide
  | 1 => decide
  | m + 2 =>
      have h : fibRec (m + 2 + 1) = fibRec (m + 1) + fibRec (m + 2) := rfl
      omega

theorem fibLoop_eq : ∀ (fuel i : Nat), 2 ≤ i →
    fibLoop fuel i (fibFirstTerms i) = fibFirstTerms (i + fuel) := by
  intro fuel
  induction fuel with
  | zero => intro i hi; simp [fibLoop]
  | succ fuel ih =>
      intro i hi
      have h1 : (fibFirstTerms i).getD (i - 1) 0 = fibRec (i - 1) :=
        fibFirstTerms_getD i (i - 1) (by omega)
      have h2 : (fibFirstTerms i).getD (i - 2) 0 = fibRec (i - 2) :=
        fibFirstTerms_getD i (i - 2) (by omega)
      have h3 : fibFirstTerms i ++ [((fibRec (i - 1) : Int) + (fibRec (i - 2) : Int))] =
          fibFirstTerms (i + 1) := by
        rw [fibFirstTerms_succ, ← Nat.cast_add, fibRec_step i hi]
      have h4 : i + 1 + fuel = i + (fuel + 1) := by omega
      rw [fibLoop, h1, h2, h3, ih (i + 1) (by omega), h4]

theorem fibLoopChecked_eq : ∀ (fuel i : Nat), 2 ≤ i →
    fibLoopChecked fuel i (fibFirstTerms i) = some (fibFirstTerms (i + fuel), fuel) := by
  intro fuel
  induction fuel with
  | zero => intro i hi; simp [fibLoopChecked]
  | succ fuel ih =>
      intro i hi
      have h1 : (fibFirstTerms i)[i - 1]? = some ((fibRec (i - 1) : Int)) :=
        fibFirstTerms_getElemOpt i (i - 1) (by omega)
      have h2 : (fibFirstTerms i)[i - 2]? = some ((fibRec (i - 2) : Int)) :=
        fibFirstTerms_getElemOpt i (i - 2) (by omega)
      have h3 : fibFirstTerms i ++ [((fibRec (i - 1) : Int) + (fibRec (i - 2) : Int))] =
          fibFirstTerms (i + 1) := by
        rw [fibFirstTerms_succ, ← Nat.cast_add, fibRec_step i hi]
      have h4 : i + 1 + fuel = i + (fuel + 1) := by omega
      simp only [fibLoopChecked, h1, h2, h3, ih (i + 1) (by omega), h4]

theorem fibFirstTerms_two : fibFirstTerms 2 = [0, 1] := by decide

theorem fibonacci_eq_aux (n : Int) (hn : 0 ≤ n) :
    fibonacci n = fibFirstTerms n.toNat := by
  by_cases h0 : n ≤ 0
  · have hz : n = 0 := le_antisymm h0 hn
    subst hz
    rw [fibonacci, if_pos le_rfl]
    simp [fibFirstTerms]
  · by_cases h1 : n = 1
    · subst h1; decide
    · by_cases h2 : n = 2
      · subst h2; decide
      · rw [fibonacci, if_neg h0, if_neg h1, if_neg h2, ← fibFirstTerms_two,
          fibLoop_eq (n.toNat - 2) 2 le_rfl]
        congr 1
        omega

/-- C1: for every non-negative integer n, fibonacci n returns exactly the
first n terms of the reference sequence F(0)=0, F(1)=1, F(k)=F(k-1)+F(k-2);
in particular fibonacci 5 = [0, 1, 1, 2, 3] and
fibonacci 10 = [0, 1, 1, 2, 3, 5, 8, 13, 21, 34]. -/
theorem fibonacci_matches_reference :
    (∀ n : Int, 0 ≤ n → fibonacci n = fibFirstTerms n.toNat) ∧
    fibonacci 5 = [0, 1, 1, 2, 3] ∧
    fibonacci 10 = [0, 1, 1, 2, 3, 5, 8, 13, 21, 34] :=
  ⟨fibonacci_eq_aux, by decide, by decide⟩

/-- Witness for C1 at n = 4. -/
theorem fibonacci_matches_reference_witness :
    fibonacci 4 = fibFirstTerms ((4 : Int)).toNat :=
  fibonacci_matches_reference.1 4 (by decide)

/-- C2: fibonacci returns the empty list for every n ≤ 0, returns [0] for
n = 1, and returns [0, 1] for n = 2. -/
theorem fibonacci_edge_cases :
    (∀ n : Int, n ≤ 0 → fibonacci n = []) ∧
    fibonacci 1 = [0] ∧ fibonacci 2 = [0, 1] :=
  ⟨fun _ hn => by rw [fibonacci, if_pos hn], by decide, by decide⟩

/-- Witness for C2 at n = -3. -/
theorem fibonacci_edge_cases_witness : fibonacci (-3) = [] :=
  fibonacci_edge_cases.1 (-3) (by decide)

/-- C3: for every integer n, including negative n, the length of
fibonacci n equals max n 0. -/
theorem fibonacci_length (n : Int) :
    ((fibonacci n).length : Int) = max n 0 := by
  by_cases hn : 0 ≤ n
  · rw [fibonacci_eq_aux n hn, fibFirstTerms_length]
    omega
  · rw [fibonacci, if_pos (by omega)]
    simp
    omega

/-- C4: for every integer n ≥ 2 and every index k with 2 ≤ k < n, the k-th
element of fibonacci n is the sum of its (k-1)-th and (k-2)-th elements. -/
theorem fibonacci_recurrence (n : Int) (k : Nat) (hk2 : 2 ≤ k)
    (hkn : (k : Int) < n) :
    (fibonacci n).getD k 0 =
      (fibonacci n).getD (k - 1) 0 + (fibonacci n).getD (k - 2) 0 := by
  have hn : 0 ≤ n := by omega
  have hkn2 : k < n.toNat := by omega
  rw [fibonacci_eq_aux n hn, fibFirstTerms_getD _ _ hkn2,
    fibFirstTerms_getD _ _ (by omega), fibFirstTerms_getD _ _ (by omega),
    ← Nat.cast_add, fibRec_step k hk2]

/-- Witness for C4 at n = 5, k = 2. -/
theorem fibonacci_recurrence_witness :
    (fibonacci 5).getD 2 0 = (fibonacci 5).getD 1 0 + (fibonacci 5).getD 0 0 :=
  fibonacci_recurrence 5 2 (by decide) (by decide)

/-- C5: greet s is exactly the concatenation of the fixed greeting around
the name. -/
theorem greet_spec (s : String) :
    greet s = "Hello, " ++ s ++ "! Welcome to Jupyter notebooks!" := rfl

/-- C8: all three functions are deterministic; equal inputs give equal
outputs, the only observable the pure embedding exposes. -/
theorem helpers_deterministic :
    (∀ s t : String, s = t → greet s = greet t) ∧
    (∀ x y : PyNum, x = y → calculate_square x = calculate_square y) ∧
    (∀ m n : Int, m = n → fibonacci m = fibonacci n) :=
  ⟨fun _ _ h => by rw [h], fun _ _ h => by rw [h], fun _ _ h => by rw [h]⟩

/-- Witness for C8 on concrete repeated calls. -/
theorem helpers_deterministic_witness :
    greet "Ada" = greet "Ada" ∧
    calculate_square (PyNum.intVal 3) = calculate_square (PyNum.intVal 3) ∧
    fibonacci 7 = fibonacci 7 :=
  ⟨helpers_deterministic.1 "Ada" "Ada" rfl,
   helpers_deterministic.2.1 (PyNum.intVal 3) (PyNum.intVal 3) rfl,
   helpers_deterministic.2.2 7 7 rfl⟩

/-- C9: every element of fibonacci n is non-negative and the returned list
is monotonically non-decreasing. -/
theorem fibonacci_nonneg_mono (n : Int) :
    (∀ x ∈ fibonacci n, 0 ≤ x) ∧
    (∀ i : Nat, i + 1 < (fibonacci n).length →
      (fibonacci n).getD i 0 ≤ (fibonacci n).getD (i + 1) 0) := by
  by_cases hn : 0 ≤ n
  · rw [fibonacci_eq_aux n hn]
    constructor
    · intro x hx
      simp only [fibFirstTerms, List.mem_map, List.mem_range] at hx
      obtain ⟨k, _, rfl⟩ := hx
      exact Int.natCast_nonneg _
    · intro i hi
      rw [fibFirstTerms_length] at hi
      rw [fibFirstTerms_getD _ _ (by omega), fibFirstTerms_getD _ _ (by omega)]
      exact_mod_cast fibRec_le_succ i
  · rw [fibonacci, if_pos (by omega)]
    exact ⟨fun x hx => absurd hx (List.not_mem_nil x), fun i hi => by simp at hi⟩

/-- Witness for C9 at n = 6: the element 3 is non-negative and position 3
is at most position 4. -/
theorem fibonacci_nonneg_mono_witness :
    0 ≤ (3 : Int) ∧ (fibonacci 6).getD 3 0 ≤ (fibonacci 6).getD 4 0 :=
  ⟨(fibonacci_nonneg_mono 6).1 3 (by decide),
   (fibonacci_nonneg_mono 6).2 3 (by decide)⟩

/-- C10: fibonacci is total: on every integer input the instrumented run,
in which every list read is bounds-checked, reaches no error branch,
returns the same list, and executes exactly (n - 2).toNat = max (n-2) 0
loop iterations. -/
theorem fibonacci_total_inbounds (n : Int) :
    fibonacciChecked n = some (fibonacci n, (n - 2).toNat) ∧
    (((n - 2).toNat : Int) = max (n - 2) 0) := by
  refine ⟨?_, by omega⟩
  by_cases h0 : n ≤ 0
  · rw [fibonacciChecked, if_pos h0, fibonacci, if_pos h0]
    congr 1
    congr 1
    omega
  · by_cases h1 : n = 1
    · subst h1; decide
    · by_cases h2 : n = 2
      · subst h2; decide
      · rw [fibonacciChecked, if_neg h0, if_neg h1, if_neg h2,
          fibonacci, if_neg h0, if_neg h1, if_neg h2,
          ← fibFirstTerms_two, fibLoopChecked_eq (n.toNat - 2) 2 le_rfl,
          fibLoop_eq (n.toNat - 2) 2 le_rfl]
        congr 2
        omega

end HelperFunctions
